import Mathlib

/-!
Shallow embedding of the AdNauseamSelenium crawler (src/crawl.py and
src/persona_manager.py) together with proofs settling the frozen claims
about its specification.

Modelling conventions:
* Python `random.random()` / `random.uniform(0, w)` draws are injected as
  explicit rational parameters; `random.choice(xs)` and `random.randint`
  are injected as natural-number seeds reduced modulo the relevant size.
* `datetime` instants are modelled as natural-number timestamps; the code
  only stores them and compares them, and chronological order of ISO-8601
  strings of a fixed format agrees with numeric order of the instants.
* Machine floats of the source are modelled as exact rationals; every
  property proved below is robust to the tie-breaking differences between
  Python's float rounding and exact rational rounding.
-/

/-- A JSON value, as produced by Python's `json.dump` for the persona file.
`arr` and `obj` are mutually recursive through lists, mirroring JSON. -/
inductive JsonVal : Type where
  | null : JsonVal
  | boolVal (b : Bool) : JsonVal
  | num (n : Int) : JsonVal
  | str (s : String) : JsonVal
  | arr (elems : List JsonVal) : JsonVal
  | obj (fields : List (String × JsonVal)) : JsonVal
deriving Repr

/-- Serialization of a JSON value to text, modelling `json.dump` (the exact
whitespace layout produced by `indent=2` is immaterial to every claim; what
matters is that serialization is a total function of the value and that an
object's text is brace-delimited). -/
def JsonVal.render : JsonVal → String
  | .null => "null"
  | .boolVal true => "true"
  | .boolVal false => "false"
  | .num n => toString n
  | .str s => "\x22" ++ s ++ "\x22"
  | .arr es => "[" ++ String.intercalate ", " (es.attach.map (fun e => e.1.render)) ++ "]"
  | .obj fs => "\x7b" ++ String.intercalate ", "
      (fs.attach.map (fun f => "\x22" ++ f.1.1 ++ "\x22: " ++ f.1.2.render)) ++ "\x7d"
decreasing_by
  · have h := List.sizeOf_lt_of_mem e.2
    simp only [JsonVal.arr.sizeOf_spec]
    omega
  · obtain ⟨⟨k, v⟩, hm⟩ := f
    have h := List.sizeOf_lt_of_mem hm
    simp only [Prod.mk.sizeOf_spec] at h
    simp only [JsonVal.obj.sizeOf_spec]
    omega

/-! ## Persona store (src/persona_manager.py) -/

/-- A persona record, as appended by `PersonaManager.create_persona`
(src/persona_manager.py:63-69).  `created_at` and `last_used` are the
`datetime` instants (modelled as numeric timestamps; the source stores
their ISO strings, whose lexicographic order is chronological order). -/
structure Persona where
  id : String
  created_at : Nat
  last_used : Nat
  use_count : Nat
  fingerprint : JsonVal
deriving Repr

/-- The in-memory store `self.personas`: the documented JSON document
`{personas: [...], metadata: {total_created: n}}`. -/
structure Store where
  personas : List Persona
  totalCreated : Nat
deriving Repr

/-- The default store returned by `_load_personas` when the file is absent
or fails to parse (src/persona_manager.py:40-41). -/
def defaultStore : Store := ⟨[], 0⟩

/-- Python's `f"{n:05d}"`: decimal rendering left-padded with zeros to
width 5. -/
def pad5 (n : Nat) : String :=
  let s := toString n
  String.mk (List.replicate (5 - s.length) '0') ++ s

/-- The persona id `f"persona_{total_created:05d}_{timestamp}"`
(src/persona_manager.py:61). -/
def mkPersonaId (total ts : Nat) : String :=
  "persona_" ++ pad5 total ++ "_" ++ toString ts

/-- `PersonaManager.create_persona` (src/persona_manager.py:51-76): builds
the record with `use_count = 1`, appends it, bumps `total_created`, and
returns the new id.  The `datetime.now()` calls of one invocation are
modelled as a single instant `now`. -/
def create_persona (st : Store) (fingerprint_data : JsonVal) (now : Nat) :
    String × Store :=
  let persona_id := mkPersonaId st.totalCreated now
  let persona : Persona := ⟨persona_id, now, now, 1, fingerprint_data⟩
  (persona_id, ⟨st.personas ++ [persona], st.totalCreated + 1⟩)

/-- `PersonaManager.get_persona` (src/persona_manager.py:78-91): linear
scan returning the first record with the given id, else `None`. -/
def get_persona (st : Store) (persona_id : String) : Option Persona :=
  st.personas.find? (fun p => p.id == persona_id)

/-- The loop body of `PersonaManager.update_persona_usage`
(src/persona_manager.py:93-100): the first record with the given id gets
`last_used` refreshed and `use_count` incremented; the `break` leaves all
later records untouched. -/
def updateFirst (persona_id : String) (now : Nat) : List Persona → List Persona
  | [] => []
  | p :: rest =>
    if p.id == persona_id then
      { p with last_used := now, use_count := p.use_count + 1 } :: rest
    else
      p :: updateFirst persona_id now rest

/-- `PersonaManager.update_persona_usage` (src/persona_manager.py:93-100). -/
def update_persona_usage (st : Store) (persona_id : String) (now : Nat) : Store :=
  ⟨updateFirst persona_id now st.personas, st.totalCreated⟩

/-- The reusable weighted-draw loop of the source (`cumulative += weight;
if rand_val <= cumulative: return value`), e.g. src/crawl.py:1290-1299 and
src/persona_manager.py:151-156.  `none` means the loop fell through to the
code after it (the fallback return). -/
def weightedFind {α : Type} (r : ℚ) : ℚ → List (α × ℚ) → Option α
  | _, [] => none
  | c, (v, w) :: rest => if r ≤ c + w then some v else weightedFind r (c + w) rest

/-- Python's `min(xs, key=f)` for a nonempty list: the first element
attaining the minimal key. -/
def pyMinBy {α : Type} (f : α → Nat) (x : α) (xs : List α) : α :=
  xs.foldl (fun acc y => if f y < f acc then y else acc) x

/-- `PersonaManager.get_persona_for_rotation`
(src/persona_manager.py:125-164).  The `random.choice` of the `random`
branch is injected as `choiceSeed`, the `random.uniform(0, total_weight)`
draw of the `weighted` branch as `r`.  The function never mutates the
store; the store is returned alongside to state that explicitly. -/
def get_persona_for_rotation (st : Store) (rotation_strategy : String)
    (choiceSeed : Nat) (r : ℚ) : Option Persona × Store :=
  if st.personas.isEmpty || rotation_strategy == "new" then
    (none, st)
  else if rotation_strategy == "random" then
    ((st.personas.getD (choiceSeed % st.personas.length)
        ⟨"", 0, 0, 0, .null⟩ : Persona) |> some, st)
  else if rotation_strategy == "weighted" then
    let personas_with_weights :=
      st.personas.map (fun p => (p, (1 : ℚ) / (p.use_count + 1)))
    match weightedFind r 0 personas_with_weights with
    | some p => (some p, st)
    | none => (st.personas.head?, st)
  else if rotation_strategy == "round-robin" then
    match st.personas with
    | [] => (none, st)
    | p :: rest => (some (pyMinBy Persona.last_used p rest), st)
  else
    (none, st)

/-- `PersonaManager.clean_old_personas` (src/persona_manager.py:166-190).
`cutoff` models `datetime.now() - timedelta(days=max_age_days)`; records
with `created_at > cutoff` are kept, survivors are stably sorted by
`last_used` descending (Python's stable `sort` with `reverse=True`), and
only the first `max_personas` are kept.  The second component is the
Python return value: the function body has no `return`, so it returns
`None` (it only prints the removed count). -/
def clean_old_personas (st : Store) (cutoff : Nat) (max_personas : Nat) :
    Store × Option Nat :=
  let filtered := st.personas.filter (fun p => cutoff < p.created_at)
  let sorted := filtered.mergeSort (fun a b => b.last_used ≤ a.last_used)
  let kept := sorted.take max_personas
  let removed_count := st.personas.length - kept.length
  if 0 < removed_count then (⟨kept, st.totalCreated⟩, none) else (st, none)

/-- Serialization of a persona record, following the dict built at
src/persona_manager.py:63-69 (timestamps appear as numbers in the model). -/
def personaToJson (p : Persona) : JsonVal :=
  .obj [("id", .str p.id), ("created_at", .num p.created_at),
        ("last_used", .num p.last_used), ("use_count", .num p.use_count),
        ("fingerprint", p.fingerprint)]

/-- Serialization of the whole store, the document shape documented for
`personas.json`. -/
def storeToJson (st : Store) : JsonVal :=
  .obj [("personas", .arr (st.personas.map personaToJson)),
        ("metadata", .obj [("total_created", .num st.totalCreated)])]

/-- Valid durable content: the text is the serialization of some store of
the documented shape. -/
def validStoreText (s : String) : Prop :=
  ∃ st : Store, (storeToJson st).render = s

/-- Crash model of `PersonaManager._save_personas`
(src/persona_manager.py:43-49): `open(self.personas_file, 'w')` truncates
the file in place, then `json.dump` streams the serialized text into it,
so an interruption leaves exactly some prefix of the new serialization on
disk (the empty file immediately after the truncation). -/
def saveCrashState (st : Store) (s : String) : Prop :=
  ∃ rest : String, s ++ rest = (storeToJson st).render

/-- `PersonaManager._load_personas` (src/persona_manager.py:32-41), seen
at the level of the parse outcome: a file that parses to a store of the
documented shape is returned as-is; a parse failure is caught and the
default store is returned. -/
def load_personas (parsed : Option Store) : Store :=
  parsed.getD defaultStore

/-! ## Fingerprint synthesis (src/crawl.py) -/

/-- The language-code parse of `get_timezone_for_language`
(src/crawl.py:1374): `language.split('-')[0].split(',')[0].lower()`. -/
def langCode (language : String) : String :=
  ((((language.splitOn "-").headD "").splitOn ",").headD "").toLower

/-- The `timezone_map` dict of `get_timezone_for_language`
(src/crawl.py:1378-1393): language code to list of offsets in minutes. -/
def timezoneMap (lang_code : String) : Option (List Int) :=
  match lang_code with
  | "fr" => some [-60, 60, 120]
  | "de" => some [60, 120]
  | "it" => some [60, 120]
  | "es" => some [60, 120]
  | "pt" => some [0, 60]
  | "nl" => some [60, 120]
  | "be" => some [60, 120]
  | "pl" => some [60, 120]
  | "en" => some [0, 60, -300, -360, -480, 600]
  | "ru" => some [180, 240, 300]
  | "ar" => some [180]
  | "zh" => some [480]
  | "ja" => some [540]
  | "ko" => some [540]
  | _ => none

/-- `get_timezone_for_language` (src/crawl.py:1366-1399).  The
`random.choice` over the row is injected as the seed `choice`, reduced
modulo the row length. -/
def get_timezone_for_language (language : String) (choice : Nat) : Int :=
  let lang_code := langCode language
  match timezoneMap lang_code with
  | some offsets => offsets.getD (choice % offsets.length) 0
  | none => [(60 : Int), 120].getD (choice % 2) 0

/-- The `timezone_to_city_coords` dict of `get_coords_for_timezone`
(src/crawl.py:1414-1435), in insertion order. -/
def timezone_to_city_coords : List (Int × ℚ × ℚ) :=
  [(-480, 37.7749, -122.4194),
   (-420, 33.4484, -112.0740),
   (-360, 41.8781, -87.6298),
   (-300, 40.7128, -74.0060),
   (-240, 10.4806, -66.9036),
   (-180, -23.5505, -46.6333),
   (0, 51.5074, -0.1278),
   (60, 48.8566, 2.3522),
   (120, 52.5200, 13.4050),
   (180, 55.7558, 37.6173),
   (240, 25.2048, 55.2708),
   (300, 28.6139, 77.2090),
   (330, 19.0760, 72.8777),
   (360, 23.8103, 90.4125),
   (420, 13.7563, 100.5018),
   (480, 39.9042, 116.4074),
   (540, 35.6762, 139.6503),
   (600, 37.5665, 126.9780),
   (660, -33.8688, 151.2093),
   (720, -36.8485, 174.7633)]

/-- Dict lookup in `timezone_to_city_coords`. -/
def coordsLookup (tz : Int) : Option (ℚ × ℚ) :=
  (timezone_to_city_coords.find? (fun e => e.1 == tz)).map Prod.snd

/-- `min(timezone_to_city_coords.keys(), key=lambda x: abs(x - timezone_offset))`
(src/crawl.py:1442-1443): Python's `min` returns the first key attaining
the minimal absolute distance, in dict insertion order. -/
def nearestOffset (tz : Int) : Int :=
  match timezone_to_city_coords.map Prod.fst with
  | [] => 0
  | k :: rest =>
    rest.foldl (fun acc x => if (x - tz).natAbs < (acc - tz).natAbs then x else acc) k

/-- The coordinates the table assigns to the nearest tabulated offset. -/
def nearestCoords (tz : Int) : ℚ × ℚ :=
  (coordsLookup (nearestOffset tz)).getD (0, 0)

/-- Python's `round(x, 4)` over exact rationals.  Python rounds the
nearest float tie to even; the model rounds ties up — both are nearest
roundings, and every property proved below uses only
`|round4 x - x| ≤ 1/20000`, which holds for either tie-break. -/
def round4 (x : ℚ) : ℚ := (round (x * 10000) : ℚ) / 10000

/-- `get_coords_for_timezone` (src/crawl.py:1402-1450).  The two
`random.random()` draws are injected as `u` and `v` in `[0, 1)`; the noise
`(random.random() - 0.5) * 0.01` becomes `(u - 1/2) / 100`. -/
def get_coords_for_timezone (timezone_offset : Int) (u v : ℚ) : ℚ × ℚ :=
  let base :=
    match coordsLookup timezone_offset with
    | some c => c
    | none => (coordsLookup (nearestOffset timezone_offset)).getD (0, 0)
  (round4 (base.1 + (u - 1/2) / 100), round4 (base.2 + (v - 1/2) / 100))

/-- The `hardware_configs` table of `generate_random_hardware`
(src/crawl.py:1257-1285): `((cores, ram_gb, touch_points), weight)`. -/
def hardware_configs : List ((Nat × Nat × Nat) × ℚ) :=
  [((2, 4, 0), 10), ((4, 4, 0), 15), ((4, 8, 0), 20),
   ((4, 8, 0), 20), ((6, 8, 0), 12), ((8, 8, 0), 15), ((8, 16, 0), 15),
   ((12, 16, 0), 8), ((16, 16, 0), 5), ((16, 32, 0), 3), ((24, 32, 0), 2),
   ((32, 64, 0), 1),
   ((4, 8, 10), 5), ((4, 8, 5), 3), ((8, 16, 10), 3), ((8, 16, 5), 2),
   ((4, 4, 10), 2), ((8, 8, 10), 2)]

/-- `generate_random_hardware` (src/crawl.py:1245-1306): the weighted-draw
loop over `hardware_configs` with the trailing fallback `{8, 8, 0}`.  The
`random.uniform(0, total_weight)` draw is injected as `r`. -/
def generate_random_hardware (r : ℚ) : Nat × Nat × Nat :=
  (weightedFind r 0 hardware_configs).getD (8, 8, 0)

/-- The cumulative-weight table named by the spec: each value paired with
the sum of the weights up to and including it. -/
def cumulativeTable {α : Type} : ℚ → List (α × ℚ) → List (α × ℚ)
  | _, [] => []
  | c, (v, w) :: rest => (v, c + w) :: cumulativeTable (c + w) rest

/-- Modelled from the spec's description of the weighted-draw primitive:
"return the first value whose cumulative weight ≥ r". -/
def firstCumGe {α : Type} (configs : List (α × ℚ)) (r : ℚ) : Option α :=
  ((cumulativeTable 0 configs).find? (fun p => r ≤ p.2)).map Prod.fst

/-! ## Plugin generation (src/crawl.py:1734-1824) -/

/-- Prefix test on character lists. -/
def listStartsWith : List Char → List Char → Bool
  | [], _ => true
  | _ :: _, [] => false
  | a :: as, b :: bs => a == b && listStartsWith as bs

/-- Substring test on character lists: the needle occurs at some
position of the haystack. -/
def listContainsAux (needle : List Char) : List Char → Bool
  | [] => listStartsWith needle []
  | h :: t => listStartsWith needle (h :: t) || listContainsAux needle t

/-- Executable substring test (`needle in hay` of Python). -/
def strContains (hay needle : String) : Bool :=
  listContainsAux needle.toList hay.toList

/-- The names of the five `pdf_plugins` entries (src/crawl.py:1756-1795),
in list order. -/
def pdf_plugin_names : List String :=
  ["Chrome PDF Plugin", "Chrome PDF Viewer", "Chromium PDF Viewer",
   "Microsoft Edge PDF Viewer", "PDF.js"]

/-- The browser-specific `pdf_candidates` selection
(src/crawl.py:1798-1811), by plugin name. -/
def pdf_candidates (browser_type : String) : List String :=
  if browser_type == "firefox" then
    let c := pdf_plugin_names.filter
      (fun n => strContains n "PDF.js" || strContains n "Firefox")
    if c.isEmpty then [pdf_plugin_names.getD 4 ""] else c
  else if browser_type == "edge" then
    pdf_plugin_names.filter (fun n => strContains n "Edge" || strContains n "Chrome")
  else if browser_type == "chromium" then
    pdf_plugin_names.filter
      (fun n => strContains n "Chromium" || strContains n "Chrome PDF Plugin")
  else
    pdf_plugin_names.filter (fun n => strContains n "Chrome")

/-- The branch `generate_random_plugins` takes, as a function of its two
independent uniform draws: `r1` is the `random.random()` of
src/crawl.py:1750 (`< 0.3` returns `'[]'`), `r2` is the fresh
`pdf_chance = random.random()` of src/crawl.py:1814 (`< 0.2` full,
`< 0.7` partial, else the trailing branch whose comment claims it was
"already handled above"). -/
inductive PluginBranch : Type where
  | empty : PluginBranch
  | fullPlugins : PluginBranch
  | partPlugins : PluginBranch
  | extraBranch : PluginBranch
deriving DecidableEq, Repr

/-- Branch selection of `generate_random_plugins`
(src/crawl.py:1750, 1814-1820). -/
def pluginBranch (r1 r2 : ℚ) : PluginBranch :=
  if r1 < 3/10 then .empty
  else if r2 < 2/10 then .fullPlugins
  else if r2 < 7/10 then .partPlugins
  else .extraBranch

/-! ## Tab management (src/crawl.py:5098-5188)

The driver is modelled by its list of open window handles and the handle
of the focused window.  `switch_to.window(h)` succeeds exactly when
`h` is an open handle; reading `current_window_handle` raises when the
focused window has been closed.  Real window handles are pairwise
distinct; theorems carry that as a `Nodup` hypothesis. -/

structure TabState where
  handles : List String
  focused : String
deriving Repr, DecidableEq

/-- Randomness consumed by one `manage_tabs` call: the seed stream behind
`random.sample` (src/crawl.py:5128), the outcome of
`random.random() < 0.3` (src/crawl.py:5148) and the `random.choice` seed
(src/crawl.py:5152). -/
structure TabRand where
  sampleSeed : Nat → Nat
  switchRoll : Bool
  choiceSeed : Nat

/-- `random.sample(pool, k)`: draws `k` elements at seed-chosen distinct
positions (all of `pool` if it has fewer than `k` elements). -/
def sampleAux (seed : Nat → Nat) : Nat → Nat → List String → List String
  | _, 0, _ => []
  | i, k + 1, pool =>
    if pool.length = 0 then []
    else
      let j := seed i % pool.length
      pool.getD j "" :: sampleAux seed (i + 1) k (pool.eraseIdx j)

/-- The trailing "make sure we're on the current browsing tab" block of
`manage_tabs` (src/crawl.py:5157-5167), together with the surrounding
exception handler (src/crawl.py:5169-5188) that fires when reading
`current_window_handle` raises because the focused window is gone. -/
def tabFinal (st : TabState) (cur : String) : TabState × String × Bool :=
  if st.focused ∈ st.handles then
    if st.focused = cur then (st, cur, false)
    else if cur ∈ st.handles then (⟨st.handles, cur⟩, cur, false)
    else
      match st.handles with
      | [] => (st, cur, false)
      | h :: _ => (⟨st.handles, h⟩, h, false)
  else
    match st.handles with
    | [] => (st, cur, false)
    | h :: _ =>
      if cur ∈ st.handles then (⟨st.handles, cur⟩, cur, false)
      else (⟨st.handles, h⟩, h, false)

/-- The overflow block of `manage_tabs` (src/crawl.py:5120-5144): when
more than `max_tabs` tabs are open, close `len - max_tabs` randomly
sampled tabs other than the current browsing tab, then switch back to the
current tab — falling back to the first remaining handle when the current
tab is no longer among the open handles. -/
def closeTabsPhase (st : TabState) (current_browsing_tab : String)
    (max_tabs : Nat) (seed : Nat → Nat) : TabState × String :=
  if max_tabs < st.handles.length then
    let num_to_close := st.handles.length - max_tabs
    let closeable_handles := st.handles.filter (fun h => h ≠ current_browsing_tab)
    let tabs_to_close :=
      sampleAux seed 0 (min num_to_close closeable_handles.length) closeable_handles
    let handles1 := tabs_to_close.foldl (fun hs h => hs.erase h) st.handles
    if current_browsing_tab ∈ handles1 then
      (⟨handles1, current_browsing_tab⟩, current_browsing_tab)
    else
      match handles1 with
      | [] => (⟨handles1, st.focused⟩, current_browsing_tab)
      | h :: _ => (⟨handles1, h⟩, h)
  else (st, current_browsing_tab)

/-- The random-tab-switch block of `manage_tabs` (src/crawl.py:5146-5155)
followed by the trailing block: with 30% probability (`roll`) and more
than one open tab, switch to a randomly chosen different tab and return
it with `switched_tab = True`; otherwise (and when there is no other
tab) fall through to `tabFinal`. -/
def switchOrFinal (st1 : TabState) (cur1 : String) (roll : Bool)
    (choiceSeed : Nat) : TabState × String × Bool :=
  if 1 < st1.handles.length ∧ roll then
    match st1.handles.filter (fun h => h ≠ cur1) with
    | [] => tabFinal st1 cur1
    | _ :: _ =>
      let other_handles := st1.handles.filter (fun h => h ≠ cur1)
      let new_tab := other_handles.getD (choiceSeed % other_handles.length) ""
      (⟨st1.handles, new_tab⟩, new_tab, true)
  else tabFinal st1 cur1

/-- `manage_tabs` (src/crawl.py:5098-5188): the early return for at most
one open tab (src/crawl.py:5116-5117), then the overflow-close phase,
then the random-switch/trailing phase.  Returns the driver state, the
current browsing tab and the `switched_tab` flag. -/
def manage_tabs (st : TabState) (current_browsing_tab : String) (max_tabs : Nat)
    (rand : TabRand) : TabState × String × Bool :=
  if st.handles.length ≤ 1 then (st, current_browsing_tab, false)
  else
    switchOrFinal (closeTabsPhase st current_browsing_tab max_tabs rand.sampleSeed).1
      (closeTabsPhase st current_browsing_tab max_tabs rand.sampleSeed).2
      rand.switchRoll rand.choiceSeed

/-! ## The browse loops (src/crawl.py:5465-5804) -/

/-- Outcome of one iteration of the per-site depth loop of `browse`
(src/crawl.py:5594-5797), abstracting the page, the link partition and
the click-method ladder:
* `noLinks` — no `<a>` elements found, `break` (crawl.py:5630-5632);
* `noClickable` — no displayed/enabled absolute-http(s) link, `break`
  (crawl.py:5645-5647);
* `noChosen` — `chosen_link` stayed `None`, `break` (crawl.py:5791-5793);
* `clickFail` — every click method failed, `continue` without touching
  `current_depth` (crawl.py:5744-5746);
* `exnContinue` — the click block raised, `continue` without touching
  `current_depth` (crawl.py:5788-5790);
* `clickInternal` — successful click on a same-domain link,
  `current_depth += 1` and the loop continues (crawl.py:5779);
* `clickExternal` — successful click on an external-domain link,
  `current_depth += 1` then `break` (crawl.py:5779-5786);
* `navError` — the iteration body raised outside the click block, `break`
  (crawl.py:5795-5797). -/
inductive ExploreOutcome : Type where
  | noLinks : ExploreOutcome
  | noClickable : ExploreOutcome
  | noChosen : ExploreOutcome
  | clickFail : ExploreOutcome
  | exnContinue : ExploreOutcome
  | clickInternal : ExploreOutcome
  | clickExternal : ExploreOutcome
  | navError : ExploreOutcome
deriving DecidableEq, Repr

/-- Fuel-indexed run of the `while current_depth < max_depth` loop
(src/crawl.py:5594), at iteration index `i` and depth `d`.  `some d'`
means the loop exited with final depth `d'` within the given fuel;
`none` means it was still running when the fuel ran out. -/
def exploreRun (s : Nat → ExploreOutcome) (max_depth : Nat) :
    Nat → Nat → Nat → Option Nat
  | 0, _, _ => none
  | fuel + 1, i, d =>
    if max_depth ≤ d then some d
    else
      match s i with
      | .noLinks => some d
      | .noClickable => some d
      | .noChosen => some d
      | .navError => some d
      | .clickExternal => some (d + 1)
      | .clickInternal => exploreRun s max_depth fuel (i + 1) (d + 1)
      | .clickFail => exploreRun s max_depth fuel (i + 1) d
      | .exnContinue => exploreRun s max_depth fuel (i + 1) d

/-- The depth loop terminates on outcome schedule `s`: some finite fuel
suffices for it to exit. -/
def exploreTerminates (s : Nat → ExploreOutcome) (max_depth : Nat) : Prop :=
  ∃ fuel d, exploreRun s max_depth fuel 0 0 = some d

/-- Outcome of loading one selected site in the outer
`while websites_visited < max_websites_per_session` loop. -/
inductive LoadOutcome : Type where
  | success : LoadOutcome
  | timeoutExn : LoadOutcome
deriving DecidableEq, Repr

/-- The `websites_visited` accounting of one outer-loop iteration for a
freshly selected site (src/crawl.py:5490-5506 and the
`except TimeoutException` handler at src/crawl.py:5802-5804): the counter
is incremented at selection time (crawl.py:5494); if `driver.get` raises
a page-load timeout the handler increments it again (crawl.py:5804) and
the loop continues (the Bool records that the exception is caught, i.e.
the session survives). -/
def visitIteration (websites_visited : Nat) : LoadOutcome → Nat × Bool
  | .success => (websites_visited + 1, true)
  | .timeoutExn => (websites_visited + 1 + 1, true)

/-! ## Claim C10 -/

/-- C10: for every store state, `get_persona_for_rotation` returns `None`
and leaves the store unchanged whenever the store is empty or the strategy
string is anything other than `'random'`, `'weighted'`, or
`'round-robin'`; in particular both `'new'` and the underscore spelling
`'round_robin'` always yield `None`. -/
theorem rotation_none_on_empty_or_unknown_strategy (st : Store)
    (strategy : String) (choiceSeed : Nat) (r : ℚ)
    (h : st.personas = [] ∨
      (strategy ≠ "random" ∧ strategy ≠ "weighted" ∧ strategy ≠ "round-robin")) :
    get_persona_for_rotation st strategy choiceSeed r = (none, st) := by
  rcases h with he | ⟨h1, h2, h3⟩
  · simp [get_persona_for_rotation, he]
  · by_cases hn : strategy = "new"
    · simp [get_persona_for_rotation, hn]
    · by_cases hemp : st.personas.isEmpty
      · simp [get_persona_for_rotation, hemp]
      · simp [get_persona_for_rotation, hemp, hn, h1, h2, h3]

/-- C10 witness: a nonempty store with the underscore spelling
`'round_robin'` yields `None` and the unchanged store. -/
theorem rotation_none_witness :
    (((⟨[⟨"p", 0, 0, 1, .null⟩], 1⟩ : Store).personas = [] ∨
      ("round_robin" ≠ "random" ∧ "round_robin" ≠ "weighted" ∧
       "round_robin" ≠ "round-robin")) ∧
     get_persona_for_rotation ⟨[⟨"p", 0, 0, 1, .null⟩], 1⟩ "round_robin" 0 0 =
       (none, ⟨[⟨"p", 0, 0, 1, .null⟩], 1⟩)) := by
  refine ⟨Or.inr ⟨by decide, by decide, by decide⟩, ?_⟩
  exact rotation_none_on_empty_or_unknown_strategy _ _ _ _
    (Or.inr ⟨by decide, by decide, by decide⟩)

/-! ## Claim C9 -/


/-- Unfolding of `clean_old_personas` used by the C9 proofs. -/
theorem clean_old_personas_eq (st : Store) (cutoff max_personas : Nat) :
    clean_old_personas st cutoff max_personas =
      (if 0 < st.personas.length -
          (((st.personas.filter (fun p => cutoff < p.created_at)).mergeSort
            (fun a b => b.last_used ≤ a.last_used)).take max_personas).length then
        (⟨((st.personas.filter (fun p => cutoff < p.created_at)).mergeSort
            (fun a b => b.last_used ≤ a.last_used)).take max_personas,
          st.totalCreated⟩, none)
      else (st, none)) := rfl

/-- C9 counterexample: `clean_old_personas` does not return the number of
personas it removed — on a store holding one persona older than the
cutoff it removes that persona (the store shrinks from one record to
zero) yet returns `None`, not `1`. -/
theorem clean_returns_none_counterexample :
    (clean_old_personas ⟨[⟨"persona_00000_5", 5, 5, 1, .null⟩], 1⟩ 10 1000).1.personas.length = 0 ∧
    (clean_old_personas ⟨[⟨"persona_00000_5", 5, 5, 1, .null⟩], 1⟩ 10 1000).2 = none := by
  rw [clean_old_personas_eq]
  norm_num

/-- C9 (amended): `clean_old_personas` returns `None` (it only prints the
removed count), and after the call the store contains at most
`max_personas` personas, each of whose `created_at` is newer than the age
cutoff. -/
theorem clean_old_personas_postcondition (st : Store) (cutoff max_personas : Nat) :
    (clean_old_personas st cutoff max_personas).2 = none ∧
    (clean_old_personas st cutoff max_personas).1.personas.length ≤ max_personas ∧
    ∀ p ∈ (clean_old_personas st cutoff max_personas).1.personas,
      cutoff < p.created_at := by
  rw [clean_old_personas_eq]
  set filtered := st.personas.filter (fun p => cutoff < p.created_at) with hf
  set sorted := filtered.mergeSort (fun a b => b.last_used ≤ a.last_used) with hs
  set kept := sorted.take max_personas with hk
  have hsortlen : sorted.length = filtered.length := List.length_mergeSort ..
  have htake : kept.length = min max_personas sorted.length := by
    rw [hk, List.length_take]
  have hkeptlen : kept.length ≤ max_personas := by omega
  have hkeptmem : ∀ p ∈ kept, cutoff < p.created_at := by
    intro p hp
    have hmem : p ∈ sorted := List.mem_of_mem_take hp
    have hmem' : p ∈ filtered := List.mem_mergeSort.mp hmem
    have hdec := List.of_mem_filter hmem'
    exact of_decide_eq_true hdec
  by_cases hrem : 0 < st.personas.length - kept.length
  · rw [if_pos hrem]
    exact ⟨rfl, hkeptlen, hkeptmem⟩
  · rw [if_neg hrem]
    have hle : st.personas.length ≤ kept.length := by omega
    have hfl : filtered.length ≤ st.personas.length := List.length_filter_le _ _
    have heq : filtered.length = st.personas.length := by omega
    have hall : ∀ p ∈ st.personas, cutoff < p.created_at := by
      intro p hp
      have hfe : filtered = st.personas :=
        (List.filter_sublist _).eq_of_length heq
      have hmem : p ∈ filtered := by rw [hfe]; exact hp
      rw [hf] at hmem
      exact of_decide_eq_true ((List.mem_filter.mp hmem).2)
    refine ⟨rfl, ?_, ?_⟩
    · show st.personas.length ≤ max_personas
      omega
    · show ∀ p ∈ st.personas, cutoff < p.created_at
      exact hall

/-! ## Claim C7 -/

/-- C7: evaluation of the `websites_visited` accounting at the failing
input.  A page-load timeout is indeed non-fatal (the iteration returns
normally and the outer loop continues, second component `true`), but the
site on which the timeout occurred advances the counter by two, not by
one: it is incremented at selection time (src/crawl.py:5494) and a second
time in the `except TimeoutException` handler (src/crawl.py:5804), while
a site visited without a timeout advances it by exactly one. -/
theorem timeout_counts_site_twice :
    visitIteration 0 .timeoutExn = (2, true) ∧
    visitIteration 0 .success = (1, true) := by
  constructor <;> rfl


/-! ## Claim C8 -/

/-- On the 10×10 grid of draw pairs, `pluginBranch` coincides with a
purely arithmetic selector on the grid indices (every threshold of the
source is a multiple of 1/10). -/
theorem pluginBranch_grid (i j : Nat) :
    pluginBranch ((i : ℚ)/10) ((j : ℚ)/10) =
      (if i < 3 then .empty else if j < 2 then .fullPlugins
       else if j < 7 then .partPlugins else .extraBranch) := by
  have h3 : ((i : ℚ)/10 < 3/10) ↔ (i < 3) := by
    rw [div_lt_div_iff_of_pos_right (by norm_num : (0:ℚ) < 10)]
    exact_mod_cast Iff.rfl
  have h2 : ((j : ℚ)/10 < 2/10) ↔ (j < 2) := by
    rw [div_lt_div_iff_of_pos_right (by norm_num : (0:ℚ) < 10)]
    exact_mod_cast Iff.rfl
  have h7 : ((j : ℚ)/10 < 7/10) ↔ (j < 7) := by
    rw [div_lt_div_iff_of_pos_right (by norm_num : (0:ℚ) < 10)]
    exact_mod_cast Iff.rfl
  unfold pluginBranch
  simp only [h3, h2, h7]

/-- C8: evaluation of `generate_random_plugins`' branch selection.  The
first conjunct evaluates the failing input: with first draw `0.5` (past
the 30% empty gate) and second draw `0.8`, the function reaches the
trailing `else` branch whose comment claims it was "already handled
above".  The remaining count conjuncts compute the exact branch
probabilities: because every threshold is a multiple of `1/10` and the
two draws are independent uniforms, the probability of each branch equals
its frequency on the uniform 10×10 grid of draw pairs `(i/10, j/10)` —
30% empty, 14% full, 35% partial and 21% the trailing branch, not the
documented 30/20/50 split.  The last conjunct checks the browser-family
filter: the firefox family is only ever offered the PDF.js entry. -/
theorem plugin_branch_distribution :
    pluginBranch (1/2) (4/5) = .extraBranch ∧
    ((Finset.range 10 ×ˢ Finset.range 10).filter
      (fun p => pluginBranch ((p.1 : ℚ)/10) ((p.2 : ℚ)/10) = .empty)).card = 30 ∧
    ((Finset.range 10 ×ˢ Finset.range 10).filter
      (fun p => pluginBranch ((p.1 : ℚ)/10) ((p.2 : ℚ)/10) = .fullPlugins)).card = 14 ∧
    ((Finset.range 10 ×ˢ Finset.range 10).filter
      (fun p => pluginBranch ((p.1 : ℚ)/10) ((p.2 : ℚ)/10) = .partPlugins)).card = 35 ∧
    ((Finset.range 10 ×ˢ Finset.range 10).filter
      (fun p => pluginBranch ((p.1 : ℚ)/10) ((p.2 : ℚ)/10) = .extraBranch)).card = 21 ∧
    pdf_candidates "firefox" = ["PDF.js"] := by
  have hc : ∀ b : PluginBranch,
      ((Finset.range 10 ×ˢ Finset.range 10).filter
        (fun p => pluginBranch ((p.1 : ℚ)/10) ((p.2 : ℚ)/10) = b)) =
      ((Finset.range 10 ×ˢ Finset.range 10).filter
        (fun p => (if p.1 < 3 then .empty else if p.2 < 2 then .fullPlugins
          else if p.2 < 7 then .partPlugins else .extraBranch) = b)) := by
    intro b
    apply Finset.filter_congr
    intro x _
    rw [pluginBranch_grid]
  refine ⟨by norm_num [pluginBranch], ?_, ?_, ?_, ?_, by decide⟩ <;>
    rw [hc] <;> decide

/-! ## Claim C2 -/

/-- The serialized store always begins with the object-opening brace, so
in particular it is never the empty string. -/
theorem render_obj_ne_empty (fs : List (String × JsonVal)) :
    JsonVal.render (.obj fs) ≠ "" := by
  intro h
  have hd := congrArg String.data h
  rw [JsonVal.render] at hd
  simp [String.data_append] at hd

/-- Prepending the empty string is the identity. -/
theorem empty_append_str (s : String) : "" ++ s = s := by
  apply String.ext
  rw [String.data_append]
  rfl

/-- C2 counterexample: `_save_personas` is not crash-safe.  Saving the
default store and crashing immediately after the `open(..., 'w')`
truncation leaves the empty file — a reachable durable state that is not
valid JSON of the documented shape (it is not the serialization of any
store). -/
theorem save_crash_empty_file_counterexample :
    saveCrashState defaultStore "" ∧ ¬ validStoreText "" := by
  constructor
  · exact ⟨(storeToJson defaultStore).render, empty_append_str _⟩
  · rintro ⟨st, h⟩
    exact render_obj_ne_empty _ h

/-- C2 (amended): `_save_personas` truncates `personas.json` in place and
streams the new serialization into it, so for every store a mid-write
crash can leave the empty file, which is not valid JSON of the documented
shape; a subsequent `_load_personas` whose parse fails does not observe
partial state but falls back to the default empty store. -/
theorem save_truncate_then_write_not_atomic (st : Store) :
    saveCrashState st "" ∧ ¬ validStoreText "" ∧
    load_personas none = defaultStore := by
  refine ⟨⟨(storeToJson st).render, empty_append_str _⟩, ?_, rfl⟩
  rintro ⟨st', h⟩
  exact render_obj_ne_empty _ h

/-! ## Claim C3 -/

/-- Scanning a list extended with a fresh record finds exactly that
record. -/
theorem find_append_fresh (l : List Persona) (q : Persona)
    (h : ∀ p ∈ l, p.id ≠ q.id) :
    (l ++ [q]).find? (fun p => p.id == q.id) = some q := by
  induction l with
  | nil => simp [List.find?]
  | cons p rest ih =>
    have hp : (p.id == q.id) = false := by
      simp only [beq_eq_false_iff_ne]
      exact h p (by simp)
    simp only [List.cons_append, List.find?, hp]
    exact ih (fun p' hp' => h p' (by simp [hp']))

/-- Updating the first record with a given id and rescanning yields that
record with only `last_used` and `use_count` changed. -/
theorem find_updateFirst (pid : String) (now2 : Nat) :
    ∀ (l : List Persona) (p : Persona),
      l.find? (fun q => q.id == pid) = some p →
      (updateFirst pid now2 l).find? (fun q => q.id == pid) =
        some ⟨p.id, p.created_at, now2, p.use_count + 1, p.fingerprint⟩ := by
  intro l
  induction l with
  | nil => intro p h; simp [List.find?] at h
  | cons p0 rest ih =>
    intro p h
    by_cases hb : (p0.id == pid) = true
    · rw [List.find?] at h
      rw [hb] at h
      simp only [Option.some.injEq] at h
      subst h
      rw [updateFirst, if_pos hb, List.find?]
      have : ({ p0 with last_used := now2, use_count := p0.use_count + 1 } : Persona).id
          == pid := hb
      rw [this]
    · have hb' : (p0.id == pid) = false := by
        exact Bool.not_eq_true _ ▸ (by simpa using hb)
      rw [List.find?] at h
      rw [hb'] at h
      rw [updateFirst, if_neg (by simp [hb']), List.find?]
      rw [show (p0.id == pid) = false from hb']
      exact ih p h

/-- C3: creating a persona from fingerprint `fp` and fetching the
returned id yields a record whose fingerprint deep-equals `fp` and whose
`use_count` is 1 (provided the freshly minted id does not already occur
in the store — ids embed the monotone `total_created` counter, so this
holds for every store the manager itself builds); and every subsequent
`update_persona_usage` on an id found by `get_persona` increments that
record's `use_count` by exactly one and refreshes `last_used`, changing
no other field of the record. -/
theorem create_get_update_contract (st : Store) (fp : JsonVal) (now now2 : Nat)
    (hfresh : ∀ p ∈ st.personas, p.id ≠ mkPersonaId st.totalCreated now) :
    get_persona (create_persona st fp now).2 (create_persona st fp now).1 =
      some ⟨mkPersonaId st.totalCreated now, now, now, 1, fp⟩ ∧
    ∀ (st' : Store) (pid : String) (p : Persona),
      get_persona st' pid = some p →
      get_persona (update_persona_usage st' pid now2) pid =
        some ⟨p.id, p.created_at, now2, p.use_count + 1, p.fingerprint⟩ := by
  constructor
  · exact find_append_fresh st.personas
      ⟨mkPersonaId st.totalCreated now, now, now, 1, fp⟩ hfresh
  · intro st' pid p h
    exact find_updateFirst pid now2 st'.personas p h

/-- C3 witness: on the empty store, create with fingerprint `"ua"` at
time 1, fetch, then update at time 2. -/
theorem create_get_update_witness :
    (∀ p ∈ (defaultStore : Store).personas, p.id ≠ mkPersonaId 0 1) ∧
    get_persona (create_persona defaultStore (.str "ua") 1).2
        (create_persona defaultStore (.str "ua") 1).1 =
      some ⟨mkPersonaId 0 1, 1, 1, 1, .str "ua"⟩ ∧
    ∀ (st' : Store) (pid : String) (p : Persona),
      get_persona st' pid = some p →
      get_persona (update_persona_usage st' pid 2) pid =
        some ⟨p.id, p.created_at, 2, p.use_count + 1, p.fingerprint⟩ := by
  have hfresh : ∀ p ∈ (defaultStore : Store).personas, p.id ≠ mkPersonaId 0 1 := by
    intro p hp
    simp [defaultStore] at hp
  have h := create_get_update_contract defaultStore (.str "ua") 1 2 hfresh
  exact ⟨hfresh, h.1, h.2⟩

/-! ## Claim C4 -/

/-- The source's weighted-draw loop, started at accumulator `c`, returns
exactly the first entry of the cumulative table (seeded at `c`) whose
cumulative weight is at least the draw. -/
theorem weightedFind_eq_firstCum {α : Type} (r : ℚ) :
    ∀ (configs : List (α × ℚ)) (c : ℚ),
      weightedFind r c configs =
        ((cumulativeTable c configs).find? (fun p => r ≤ p.2)).map Prod.fst := by
  intro configs
  induction configs with
  | nil => intro c; rfl
  | cons hd tl ih =>
    intro c
    obtain ⟨v, w⟩ := hd
    rw [cumulativeTable]
    by_cases h : r ≤ c + w
    · rw [weightedFind, if_pos h, List.find?_cons_of_pos _ (by simpa using h)]
      rfl
    · rw [weightedFind, if_neg h, List.find?_cons_of_neg _ (by simpa using h)]
      exact ih (c + w)

/-- If the draw does not exceed the accumulator plus the total remaining
weight, the loop returns some entry (the trailing fallback is dead). -/
theorem weightedFind_isSome {α : Type} (r : ℚ) :
    ∀ (configs : List (α × ℚ)) (c : ℚ), configs ≠ [] →
      r ≤ c + (configs.map Prod.snd).sum → (weightedFind r c configs).isSome := by
  intro configs
  induction configs with
  | nil => intro c h; exact absurd rfl h
  | cons hd tl ih =>
    intro c _ hr
    obtain ⟨v, w⟩ := hd
    by_cases h : r ≤ c + w
    · simp [weightedFind, h]
    · rcases tl with _ | ⟨hd', tl'⟩
      · exfalso
        apply h
        simpa using hr
      · rw [weightedFind, if_neg h]
        apply ih (c + w) (by simp)
        have : (((v, w) :: hd' :: tl').map Prod.snd).sum =
            w + ((hd' :: tl').map Prod.snd).sum := by simp
        rw [this] at hr
        linarith

/-- C4: for every non-empty config list with positive weights and every
draw `r` in `(0, ΣW]`, the reusable weighted-draw loop returns the first
value in list order whose cumulative weight is ≥ `r` (the spec-side
`firstCumGe`), it returns *some* value — so the trailing fallback return
after the loop is never reached — and the concrete instantiation at the
`hardware_configs` table of `generate_random_hardware` likewise never
reaches its fallback. -/
theorem weighted_draw_first_cumulative {α : Type} (configs : List (α × ℚ)) (r : ℚ)
    (hne : configs ≠ []) (_hpos : ∀ p ∈ configs, 0 < p.2)
    (_h0 : 0 < r) (hr : r ≤ (configs.map Prod.snd).sum) :
    weightedFind r 0 configs = firstCumGe configs r ∧
    (weightedFind r 0 configs).isSome ∧
    (∀ r' : ℚ, 0 < r' → r' ≤ (hardware_configs.map Prod.snd).sum →
      (weightedFind r' 0 hardware_configs).isSome) := by
  refine ⟨weightedFind_eq_firstCum r configs 0, ?_, ?_⟩
  · exact weightedFind_isSome r configs 0 hne (by simpa using hr)
  · intro r' _ hr'
    exact weightedFind_isSome r' hardware_configs 0
      (List.cons_ne_nil _ _) (by simpa using hr')

/-- C4 witness: the two-entry table `[(5, 2), (7, 3)]` with draw `3`
returns `7`, the first value whose cumulative weight (5) is ≥ 3. -/
theorem weighted_draw_witness :
    (([((5 : Nat), (2 : ℚ)), (7, 3)] : List (Nat × ℚ)) ≠ [] ∧
     (∀ p ∈ ([((5 : Nat), (2 : ℚ)), (7, 3)] : List (Nat × ℚ)), 0 < p.2) ∧
     (0 : ℚ) < 3 ∧ (3 : ℚ) ≤ (([((5 : Nat), (2 : ℚ)), (7, 3)].map Prod.snd).sum)) ∧
    weightedFind 3 0 ([((5 : Nat), (2 : ℚ)), (7, 3)]) =
      firstCumGe ([((5 : Nat), (2 : ℚ)), (7, 3)]) 3 ∧
    (weightedFind 3 0 ([((5 : Nat), (2 : ℚ)), (7, 3)])).isSome := by
  have h1 : (([((5 : Nat), (2 : ℚ)), (7, 3)] : List (Nat × ℚ)) ≠ []) :=
    List.cons_ne_nil _ _
  have h2 : ∀ p ∈ ([((5 : Nat), (2 : ℚ)), (7, 3)] : List (Nat × ℚ)), 0 < p.2 := by
    intro p hp
    fin_cases hp <;> norm_num
  have h3 : (0 : ℚ) < 3 := by norm_num
  have h4 : (3 : ℚ) ≤ (([((5 : Nat), (2 : ℚ)), (7, 3)].map Prod.snd).sum) := by
    simp
  have h := weighted_draw_first_cumulative ([((5 : Nat), (2 : ℚ)), (7, 3)]) 3
    h1 h2 h3 h4
  exact ⟨⟨h1, h2, h3, h4⟩, h.1, h.2.1⟩

/-! ## Claim C5 -/

/-- Under the schedule where every click attempt fails, the depth loop
never exits: it keeps re-entering at depth 0, since the click-failure
`continue` (src/crawl.py:5746) does not advance `current_depth`. -/
theorem exploreRun_constFail :
    ∀ fuel i d, d < 3 →
      exploreRun (fun _ => .clickFail) 3 fuel i d = none := by
  intro fuel
  induction fuel with
  | zero => intro i d _; rfl
  | succ n ih =>
    intro i d hd
    rw [exploreRun, if_neg (by omega)]
    exact ih (i + 1) d hd

/-- C5 counterexample: the depth loop does not always terminate — with
`max_depth = 3` and a schedule on which every click method fails on every
iteration, no finite fuel makes the loop exit: the `continue` taken when
`click_success` stays false re-runs the loop body at an unchanged depth. -/
theorem explore_click_failure_loops_forever :
    ¬ exploreTerminates (fun _ => .clickFail) 3 := by
  rintro ⟨fuel, d, h⟩
  rw [exploreRun_constFail fuel 0 0 (by omega)] at h
  exact Option.noConfusion h

/-- Every iteration whose outcome is not one of the two
`continue`-without-progress outcomes either exits the loop or increases
the depth, so the loop exits once the remaining fuel exceeds the
remaining depth budget. -/
theorem exploreRun_isSome_of_no_continue (s : Nat → ExploreOutcome)
    (max_depth : Nat)
    (hs : ∀ i, s i ≠ .clickFail ∧ s i ≠ .exnContinue) :
    ∀ fuel i d, 0 < fuel → max_depth < d + fuel →
      ∃ dd, exploreRun s max_depth fuel i d = some dd := by
  intro fuel
  induction fuel with
  | zero => intro i d h _; omega
  | succ n ih =>
    intro i d _ h
    by_cases hd : max_depth ≤ d
    · exact ⟨d, by rw [exploreRun, if_pos hd]⟩
    · have hne := hs i
      rcases ho : s i with _ | _ | _ | _ | _ | _ | _ | _
      all_goals rw [exploreRun, if_neg hd, ho]
      · exact ⟨d, rfl⟩
      · exact ⟨d, rfl⟩
      · exact ⟨d, rfl⟩
      · exact absurd ho (by simpa using hne.1)
      · exact absurd ho (by simpa using hne.2)
      · exact ih (i + 1) (d + 1) (by omega) (by omega)
      · exact ⟨d + 1, rfl⟩
      · exact ⟨d, rfl⟩

/-- C5 (amended): the depth loop terminates for every schedule that never
takes a `continue`-without-progress outcome (in particular for the
self-link page, whose iterations are all successful internal clicks):
`max_depth + 1` iterations always suffice.  As the counterexample shows,
a schedule on which every click fails loops forever, so termination holds
only under this proviso. -/
theorem explore_terminates_without_continue (s : Nat → ExploreOutcome)
    (max_depth : Nat)
    (hs : ∀ i, s i ≠ .clickFail ∧ s i ≠ .exnContinue) :
    ∃ d, exploreRun s max_depth (max_depth + 1) 0 0 = some d := by
  exact exploreRun_isSome_of_no_continue s max_depth hs (max_depth + 1) 0 0
    (by omega) (by omega)

/-- C5 witness: the page that links only to itself — every iteration is a
successful internal click — exits with `max_depth = 2` after the depth
budget is consumed. -/
theorem explore_self_link_witness :
    (∀ i : Nat, (fun _ : Nat => ExploreOutcome.clickInternal) i ≠ .clickFail ∧
      (fun _ : Nat => ExploreOutcome.clickInternal) i ≠ .exnContinue) ∧
    ∃ d, exploreRun (fun _ => ExploreOutcome.clickInternal) 2 3 0 0 = some d := by
  have hs : ∀ i : Nat, (fun _ : Nat => ExploreOutcome.clickInternal) i ≠ .clickFail ∧
      (fun _ : Nat => ExploreOutcome.clickInternal) i ≠ .exnContinue := by
    intro i
    exact ⟨fun h => ExploreOutcome.noConfusion h,
           fun h => ExploreOutcome.noConfusion h⟩
  exact ⟨hs, explore_terminates_without_continue _ 2 hs⟩

/-! ## Claim C6: auxiliary lemmas -/

/-- Every sampled tab comes from the pool. -/
theorem sampleAux_subset (seed : Nat → Nat) :
    ∀ (k i : Nat) (pool : List String), ∀ x ∈ sampleAux seed i k pool, x ∈ pool := by
  intro k
  induction k with
  | zero => intro i pool x hx; simp [sampleAux] at hx
  | succ n ih =>
    intro i pool x hx
    rw [sampleAux] at hx
    by_cases hp : pool.length = 0
    · rw [if_pos hp] at hx
      simp at hx
    · rw [if_neg hp] at hx
      have hlt : seed i % pool.length < pool.length :=
        Nat.mod_lt _ (Nat.pos_of_ne_zero hp)
      rcases List.mem_cons.mp hx with h | h
      · rw [h, List.getD_eq_getElem pool "" hlt]
        exact List.getElem_mem hlt
      · exact List.mem_of_mem_eraseIdx (ih (i + 1) _ x h)

/-- `random.sample` draws `min k |pool|` tabs. -/
theorem sampleAux_length (seed : Nat → Nat) :
    ∀ (k i : Nat) (pool : List String),
      (sampleAux seed i k pool).length = min k pool.length := by
  intro k
  induction k with
  | zero => intro i pool; simp [sampleAux]
  | succ n ih =>
    intro i pool
    rw [sampleAux]
    by_cases hp : pool.length = 0
    · rw [if_pos hp]
      simp [hp]
    · rw [if_neg hp]
      have hpos : 0 < pool.length := Nat.pos_of_ne_zero hp
      have hlt : seed i % pool.length < pool.length := Nat.mod_lt _ hpos
      have herase : (pool.eraseIdx (seed i % pool.length)).length =
          pool.length - 1 := by
        rw [List.length_eraseIdx]
        simp [hlt]
      simp only [List.length_cons, ih (i + 1), herase]
      omega

/-- In a duplicate-free list, the element at a position does not survive
erasing that position. -/
theorem nodup_getElem_not_mem_eraseIdx :
    ∀ (l : List String) (j : Nat) (h : j < l.length), l.Nodup →
      l[j] ∉ l.eraseIdx j := by
  intro l
  induction l with
  | nil => intro j h; simp at h
  | cons a t ih =>
    intro j h hnd
    cases j with
    | zero =>
      simp only [List.eraseIdx_zero, List.getElem_cons_zero, List.tail_cons]
      exact (List.nodup_cons.mp hnd).1
    | succ m =>
      have hm : m < t.length := by simpa using h
      simp only [List.eraseIdx_cons_succ, List.getElem_cons_succ]
      intro hmem
      rcases List.mem_cons.mp hmem with heq | hmem'
      · exact (List.nodup_cons.mp hnd).1 (heq ▸ List.getElem_mem hm)
      · exact ih m hm (List.nodup_cons.mp hnd).2 hmem'

/-- Sampling from a duplicate-free pool yields pairwise distinct tabs. -/
theorem sampleAux_nodup (seed : Nat → Nat) :
    ∀ (k i : Nat) (pool : List String), pool.Nodup →
      (sampleAux seed i k pool).Nodup := by
  intro k
  induction k with
  | zero => intro i pool _; simp [sampleAux]
  | succ n ih =>
    intro i pool hnd
    rw [sampleAux]
    by_cases hp : pool.length = 0
    · rw [if_pos hp]
      simp
    · rw [if_neg hp]
      have hpos : 0 < pool.length := Nat.pos_of_ne_zero hp
      have hlt : seed i % pool.length < pool.length := Nat.mod_lt _ hpos
      refine List.nodup_cons.mpr ⟨?_, ih (i + 1) _ (List.Nodup.eraseIdx _ hnd)⟩
      intro hmem
      have hin : pool.getD (seed i % pool.length) "" ∈
          pool.eraseIdx (seed i % pool.length) :=
        sampleAux_subset seed n (i + 1) _ _ hmem
      rw [List.getD_eq_getElem pool "" hlt] at hin
      exact nodup_getElem_not_mem_eraseIdx pool _ hlt hnd hin

/-- Erasing a duplicate-free batch of present elements removes exactly
one occurrence each. -/
theorem foldl_erase_length :
    ∀ (toClose all : List String), all.Nodup → toClose.Nodup →
      (∀ x ∈ toClose, x ∈ all) →
      (toClose.foldl (fun hs h => hs.erase h) all).length =
        all.length - toClose.length := by
  intro toClose
  induction toClose with
  | nil => intro all _ _ _; simp
  | cons x xs ih =>
    intro all hall hnd hsub
    have hx : x ∈ all := hsub x (by simp)
    have hrest : ∀ y ∈ xs, y ∈ all.erase x := by
      intro y hy
      have hyx : y ≠ x := by
        rintro rfl
        exact (List.nodup_cons.mp hnd).1 hy
      exact (List.mem_erase_of_ne hyx).mpr (hsub y (by simp [hy]))
    have := ih (all.erase x) (hall.erase x) (List.nodup_cons.mp hnd).2 hrest
    simp only [List.foldl_cons]
    rw [this, List.length_erase_of_mem hx]
    have hpos : 0 < all.length := List.length_pos.mpr (by rintro rfl; simp at hx)
    simp only [List.length_cons]
    omega

/-- The erase fold only removes handles. -/
theorem foldl_erase_subset :
    ∀ (toClose all : List String),
      (toClose.foldl (fun hs h => hs.erase h) all) ⊆ all := by
  intro toClose
  induction toClose with
  | nil => intro all; simp [List.Subset.refl]
  | cons x xs ih =>
    intro all y hy
    simp only [List.foldl_cons] at hy
    exact List.erase_subset x all (ih (all.erase x) hy)

/-- The erase fold preserves distinctness. -/
theorem foldl_erase_nodup :
    ∀ (toClose all : List String), all.Nodup →
      (toClose.foldl (fun hs h => hs.erase h) all).Nodup := by
  intro toClose
  induction toClose with
  | nil => intro all h; simpa
  | cons x xs ih =>
    intro all h
    simp only [List.foldl_cons]
    exact ih (all.erase x) (h.erase x)

/-- Length of the "all tabs except the current one" filter. -/
theorem filter_ne_length (l : List String) (h : l.Nodup) (a : String) :
    (l.filter (fun x => x ≠ a)).length =
      if a ∈ l then l.length - 1 else l.length := by
  have hcong : l.filter (fun x => decide (x ≠ a)) = l.filter (fun x => x != a) := by
    apply List.filter_congr
    intro x _
    by_cases hxa : x = a <;> simp [hxa, bne]
  by_cases hm : a ∈ l
  · rw [if_pos hm]
    have he := h.erase_eq_filter a
    rw [hcong, ← he]
    exact List.length_erase_of_mem hm
  · rw [if_neg hm]
    have hall : ∀ x ∈ l, (fun x => decide (x ≠ a)) x = true := by
      intro x hx
      simp
      rintro rfl
      exact hm hx
    rw [List.filter_eq_self.mpr hall]


/-- The trailing block of `manage_tabs` never touches the open handles
and, when at least one tab is open, always lands on an open handle. -/
theorem tabFinal_spec (st : TabState) (cur : String) (hne : st.handles ≠ []) :
    (tabFinal st cur).1.handles = st.handles ∧
    (tabFinal st cur).2.1 ∈ st.handles := by
  unfold tabFinal
  by_cases hf : st.focused ∈ st.handles
  · rw [if_pos hf]
    by_cases hfc : st.focused = cur
    · rw [if_pos hfc]
      exact ⟨rfl, hfc ▸ hf⟩
    · rw [if_neg hfc]
      by_cases hc : cur ∈ st.handles
      · rw [if_pos hc]
        exact ⟨rfl, hc⟩
      · rw [if_neg hc]
        cases hh : st.handles with
        | nil => exact absurd hh hne
        | cons h t => exact ⟨rfl, by simp⟩
  · rw [if_neg hf]
    cases hh : st.handles with
    | nil => exact absurd hh hne
    | cons h t =>
      by_cases hc : cur ∈ h :: t
      · dsimp only
        rw [if_pos hc]
        exact ⟨rfl, hc⟩
      · dsimp only
        rw [if_neg hc]
        exact ⟨rfl, by simp⟩

/-- The switch/trailing phase never touches the open handles and, when at
least one tab is open, returns an open handle. -/
theorem switchOrFinal_spec (st1 : TabState) (cur1 : String) (roll : Bool)
    (choiceSeed : Nat) (hne : st1.handles ≠ []) :
    (switchOrFinal st1 cur1 roll choiceSeed).1.handles = st1.handles ∧
    (switchOrFinal st1 cur1 roll choiceSeed).2.1 ∈ st1.handles := by
  unfold switchOrFinal
  by_cases hsw : 1 < st1.handles.length ∧ roll = true
  · rw [if_pos hsw]
    cases ho : st1.handles.filter (fun h => h ≠ cur1) with
    | nil => exact tabFinal_spec st1 cur1 hne
    | cons h t =>
      constructor
      · rfl
      · have hpos : 0 < (h :: t).length := by simp
        have hlt : choiceSeed % (h :: t).length < (h :: t).length :=
          Nat.mod_lt _ hpos
        have hsub : (h :: t) ⊆ st1.handles := by
          rw [← ho]
          intro y hy
          exact (List.mem_filter.mp hy).1
        show (h :: t).getD (choiceSeed % (h :: t).length) "" ∈ st1.handles
        apply hsub
        rw [List.getD_eq_getElem _ "" hlt]
        exact List.getElem_mem hlt
  · rw [if_neg hsw]
    exact tabFinal_spec st1 cur1 hne

/-- The overflow-close phase: starting from at least two distinct open
tabs and `max_tabs ≥ 1`, the resulting open-handle list is duplicate-free
with length `min max_tabs (original count)`, and the resulting current
tab is an open handle unless the phase did nothing at all. -/
theorem closeTabsPhase_spec (st : TabState) (cur : String) (m : Nat)
    (seed : Nat → Nat) (hnd : st.handles.Nodup) (hm : 1 ≤ m)
    (hlen : 2 ≤ st.handles.length) :
    (closeTabsPhase st cur m seed).1.handles.length =
      (if m < st.handles.length then m else st.handles.length) ∧
    (closeTabsPhase st cur m seed).1.handles.Nodup ∧
    ((closeTabsPhase st cur m seed).2 ∈ (closeTabsPhase st cur m seed).1.handles ∨
      (closeTabsPhase st cur m seed).1 = st ∧ (closeTabsPhase st cur m seed).2 = cur) := by
  unfold closeTabsPhase
  by_cases hover : m < st.handles.length
  · simp only [if_pos hover]
    set closeable := st.handles.filter (fun h => h ≠ cur) with hclos
    set toClose := sampleAux seed 0
      (min (st.handles.length - m) closeable.length) closeable with htc
    set handles1 := toClose.foldl (fun hs h => hs.erase h) st.handles with hh1
    have hclen : closeable.length =
        if cur ∈ st.handles then st.handles.length - 1 else st.handles.length := by
      rw [hclos]
      exact filter_ne_length st.handles hnd cur
    have hclen' : st.handles.length - m ≤ closeable.length := by
      rw [hclen]
      split <;> omega
    have htclen : toClose.length = st.handles.length - m := by
      rw [htc, sampleAux_length]
      omega
    have htcnd : toClose.Nodup := by
      rw [htc]
      exact sampleAux_nodup seed _ 0 closeable (hnd.filter _)
    have htcsub : ∀ x ∈ toClose, x ∈ st.handles := by
      intro x hx
      rw [htc] at hx
      have hxc : x ∈ closeable := sampleAux_subset seed _ 0 closeable x hx
      rw [hclos] at hxc
      exact (List.mem_filter.mp hxc).1
    have hh1len : handles1.length = m := by
      rw [hh1, foldl_erase_length toClose st.handles hnd htcnd htcsub, htclen]
      omega
    have hh1nd : handles1.Nodup := by
      rw [hh1]
      exact foldl_erase_nodup toClose st.handles hnd
    by_cases hc : cur ∈ handles1
    · rw [if_pos hc]
      exact ⟨hh1len, hh1nd, Or.inl hc⟩
    · rw [if_neg hc]
      have hne1 : handles1 ≠ [] := by
        intro h0
        rw [h0] at hh1len
        simp at hh1len
        omega
      obtain ⟨h, t, hh⟩ : ∃ h t, handles1 = h :: t := by
        cases hcase : handles1 with
        | nil => exact absurd hcase hne1
        | cons a b => exact ⟨a, b, rfl⟩
      rw [hh] at hh1len hh1nd ⊢
      exact ⟨hh1len, hh1nd, Or.inl (by simp)⟩
  · rw [if_neg hover, if_neg hover]
    exact ⟨rfl, hnd, Or.inr ⟨rfl, rfl⟩⟩

/-- C6 counterexample: when exactly one tab is open and the previously
active tab has disappeared (a popup replaced it), `manage_tabs` takes the
`len(all_handles) <= 1` early return (src/crawl.py:5116-5117) and hands
back the vanished handle `"t1"`, which is not a member of the open set
`["t2"]`. -/
theorem manage_tabs_vanished_tab_counterexample :
    manage_tabs ⟨["t2"], "t2"⟩ "t1" 8 ⟨fun _ => 0, false, 0⟩ =
      (⟨["t2"], "t2"⟩, "t1", false) ∧
    "t1" ∉ (manage_tabs ⟨["t2"], "t2"⟩ "t1" 8 ⟨fun _ => 0, false, 0⟩).1.handles := by
  have h : manage_tabs ⟨["t2"], "t2"⟩ "t1" 8 ⟨fun _ => 0, false, 0⟩ =
      (⟨["t2"], "t2"⟩, "t1", false) := rfl
  refine ⟨h, ?_⟩
  rw [h]
  decide

/-- C6 (amended): after every `manage_tabs` call on distinct handles with
`max_tabs ≥ 1`, the number of open tab handles is at most `max_tabs`; and
whenever at least two tabs are open — or the active tab is still among
the open handles — the returned current-browsing-tab handle is a member
of the open set.  (When at most one tab is open and the active tab has
vanished, the early return hands back the stale handle, as the
counterexample shows.) -/
theorem manage_tabs_invariants (st : TabState) (cur : String) (m : Nat)
    (rand : TabRand) (hnd : st.handles.Nodup) (hm : 1 ≤ m) :
    (manage_tabs st cur m rand).1.handles.length ≤ m ∧
    ((2 ≤ st.handles.length ∨ cur ∈ st.handles) →
      (manage_tabs st cur m rand).2.1 ∈ (manage_tabs st cur m rand).1.handles) := by
  unfold manage_tabs
  by_cases hearly : st.handles.length ≤ 1
  · rw [if_pos hearly]
    constructor
    · show st.handles.length ≤ m
      omega
    · rintro (h2 | hc)
      · omega
      · exact hc
  · rw [if_neg hearly]
    have hlen : 2 ≤ st.handles.length := by omega
    obtain ⟨ha, _, _⟩ := closeTabsPhase_spec st cur m rand.sampleSeed hnd hm hlen
    have hpos1 : 0 < (closeTabsPhase st cur m rand.sampleSeed).1.handles.length := by
      rw [ha]
      split <;> omega
    have hne1 : (closeTabsPhase st cur m rand.sampleSeed).1.handles ≠ [] := by
      intro h0
      rw [h0] at hpos1
      simp at hpos1
    obtain ⟨hsw1, hsw2⟩ := switchOrFinal_spec
      (closeTabsPhase st cur m rand.sampleSeed).1
      (closeTabsPhase st cur m rand.sampleSeed).2 rand.switchRoll rand.choiceSeed hne1
    constructor
    · rw [hsw1, ha]
      split <;> omega
    · intro _
      rw [hsw1]
      exact hsw2

/-- C6 witness: three distinct tabs, `max_tabs = 2`, active tab `"a"`
still open — the invariants hold at this concrete input. -/
theorem manage_tabs_invariants_witness :
    ((["a", "b", "c"] : List String).Nodup ∧ 1 ≤ 2) ∧
    (manage_tabs ⟨["a", "b", "c"], "a"⟩ "a" 2 ⟨fun _ => 0, false, 0⟩).1.handles.length ≤ 2 ∧
    ((2 ≤ (⟨["a", "b", "c"], "a"⟩ : TabState).handles.length ∨
        "a" ∈ (⟨["a", "b", "c"], "a"⟩ : TabState).handles) →
      (manage_tabs ⟨["a", "b", "c"], "a"⟩ "a" 2 ⟨fun _ => 0, false, 0⟩).2.1 ∈
        (manage_tabs ⟨["a", "b", "c"], "a"⟩ "a" 2 ⟨fun _ => 0, false, 0⟩).1.handles) := by
  have hnd : (["a", "b", "c"] : List String).Nodup := by decide
  have h := manage_tabs_invariants ⟨["a", "b", "c"], "a"⟩ "a" 2
    ⟨fun _ => 0, false, 0⟩ hnd (by decide)
  exact ⟨⟨hnd, by decide⟩, h.1, h.2⟩

/-! ## Claim C1 -/

/-- Every row of the `timezone_map` dict is non-empty. -/
theorem tz_row_nonempty (code : String) (row : List Int)
    (h : timezoneMap code = some row) : row ≠ [] := by
  unfold timezoneMap at h
  split at h <;> intro hrow <;> subst hrow <;> simp_all

/-- `random.choice` over a non-empty list, modelled as indexing modulo
the length, yields a member. -/
theorem getD_mod_mem (l : List Int) (n : Nat) (hne : l ≠ []) :
    l.getD (n % l.length) 0 ∈ l := by
  have hpos : 0 < l.length := List.length_pos.mpr hne
  have hlt : n % l.length < l.length := Nat.mod_lt _ hpos
  rw [List.getD_eq_getElem l 0 hlt]
  exact List.getElem_mem hlt

/-- The chosen offset is always a member of the row keyed by the parsed
language code, or of the Central-European default row. -/
theorem get_timezone_mem (language : String) (choice : Nat) :
    get_timezone_for_language language choice ∈
      (timezoneMap (langCode language)).getD [60, 120] := by
  show (match timezoneMap (langCode language) with
    | some offsets => offsets.getD (choice % offsets.length) 0
    | none => [(60 : Int), 120].getD (choice % 2) 0) ∈
      (timezoneMap (langCode language)).getD [60, 120]
  cases h : timezoneMap (langCode language) with
  | some row => exact getD_mod_mem row choice (tz_row_nonempty _ row h)
  | none => exact getD_mod_mem [60, 120] choice (by simp)

set_option maxRecDepth 8000 in
/-- For a tabulated offset, the nearest tabulated offset is itself (the
minimal distance 0 is attained only there, so Python's first-minimum
`min` returns the offset unchanged). -/
theorem nearest_fixed :
    ∀ tz ∈ timezone_to_city_coords.map Prod.fst, nearestOffset tz = tz := by
  decide

/-- `get_coords_for_timezone` jitters exactly the coordinates of the
nearest tabulated offset: the dict-hit branch coincides with the
nearest-offset branch on tabulated offsets. -/
theorem get_coords_base (tz : Int) (u v : ℚ) :
    get_coords_for_timezone tz u v =
      (round4 ((nearestCoords tz).1 + (u - 1/2) / 100),
       round4 ((nearestCoords tz).2 + (v - 1/2) / 100)) := by
  unfold get_coords_for_timezone
  cases h : coordsLookup tz with
  | none =>
    unfold nearestCoords
    rfl
  | some c =>
    have htz : tz ∈ timezone_to_city_coords.map Prod.fst := by
      unfold coordsLookup at h
      cases hf : timezone_to_city_coords.find? (fun e => e.1 == tz) with
      | none => rw [hf] at h; simp at h
      | some e =>
        have he : e ∈ timezone_to_city_coords := List.mem_of_find?_eq_some hf
        have heq : e.1 = tz := by
          have := List.find?_some hf
          exact eq_of_beq this
        rw [← heq]
        exact List.mem_map_of_mem Prod.fst he
    have hno : nearestOffset tz = tz := nearest_fixed tz htz
    unfold nearestCoords
    rw [hno, h]
    rfl

/-- Rounding to four decimals moves a rational by at most `1/20000`. -/
theorem round4_close (x : ℚ) : |round4 x - x| ≤ 1 / 20000 := by
  unfold round4
  have h := abs_sub_round (x * 10000)
  rw [abs_sub_comm] at h
  have heq : (round (x * 10000) : ℚ) / 10000 - x =
      ((round (x * 10000) : ℚ) - x * 10000) / 10000 := by ring
  rw [heq, abs_div, abs_of_pos (show (0 : ℚ) < 10000 by norm_num)]
  have h2 := (div_le_div_iff_of_pos_right (show (0 : ℚ) < 10000 by norm_num)).mpr h
  refine le_trans h2 (by norm_num)

/-- The `±0.5km` jitter plus four-decimal rounding moves each coordinate
by at most `0.01` degrees. -/
theorem round4_noise_bound (b u : ℚ) (h0 : 0 ≤ u) (h1 : u < 1) :
    |round4 (b + (u - 1/2) / 100) - b| ≤ 1 / 100 := by
  set y := b + (u - 1/2) / 100 with hy
  have hr := round4_close y
  have hn : |(u - 1/2) / 100| ≤ 1 / 200 := by
    rw [abs_div, abs_of_pos (show (0 : ℚ) < 100 by norm_num)]
    have habs : |u - 1/2| ≤ 1/2 := abs_le.mpr ⟨by linarith, by linarith⟩
    have := (div_le_div_iff_of_pos_right (show (0 : ℚ) < 100 by norm_num)).mpr habs
    refine le_trans this (by norm_num)
  have hsplit : round4 y - b = (round4 y - y) + ((u - 1/2) / 100) := by
    rw [hy]; ring
  rw [hsplit]
  calc |(round4 y - y) + ((u - 1/2) / 100)|
      ≤ |round4 y - y| + |(u - 1/2) / 100| := abs_add _ _
    _ ≤ 1 / 20000 + 1 / 200 := add_le_add hr hn
    _ ≤ 1 / 100 := by norm_num

/-- C1: for every synthesized persona the timezone and geo-coordinates
are consistent with the language chosen at creation.  The offset returned
by `get_timezone_for_language` is always a member of the fixed table row
keyed by the language's primary code (or of the Central-European default
row `[60, 120]` when that code has no row), and the coordinate pair
returned by `get_coords_for_timezone` differs from the tabulated
coordinates of the nearest tabulated offset by at most `0.01` degrees in
each of latitude and longitude; both values are deterministic functions
of their input and the injected draws, never sampled independently of the
input. -/
theorem timezone_geo_consistency :
    (∀ (language : String) (choice : Nat),
      get_timezone_for_language language choice ∈
        (timezoneMap (langCode language)).getD [60, 120]) ∧
    (∀ (tz : Int) (u v : ℚ), 0 ≤ u → u < 1 → 0 ≤ v → v < 1 →
      |(get_coords_for_timezone tz u v).1 - (nearestCoords tz).1| ≤ 1 / 100 ∧
      |(get_coords_for_timezone tz u v).2 - (nearestCoords tz).2| ≤ 1 / 100) := by
  constructor
  · exact get_timezone_mem
  · intro tz u v h0 h1 h2 h3
    rw [get_coords_base]
    exact ⟨round4_noise_bound _ u h0 h1, round4_noise_bound _ v h2 h3⟩

/-- C1 witness: the language header `"fr-FR,fr;q=0.9"` (whose row is the
`'fr'` table row) and the untabulated offset `90` with both jitter draws
`0`. -/
theorem timezone_geo_witness :
    get_timezone_for_language "fr-FR,fr;q=0.9" 2 ∈
      (timezoneMap (langCode "fr-FR,fr;q=0.9")).getD [60, 120] ∧
    ((0 : ℚ) ≤ 0 ∧ (0 : ℚ) < 1) ∧
    |(get_coords_for_timezone 90 0 0).1 - (nearestCoords 90).1| ≤ 1 / 100 ∧
    |(get_coords_for_timezone 90 0 0).2 - (nearestCoords 90).2| ≤ 1 / 100 := by
  have h2 := timezone_geo_consistency.2 90 0 0 (le_refl 0) (by decide)
    (le_refl 0) (by decide)
  exact ⟨timezone_geo_consistency.1 "fr-FR,fr;q=0.9" 2,
    ⟨le_refl 0, by decide⟩, h2.1, h2.2⟩
